import Mathlib

/-!
Verification of the OpenGL-Renderer-Rust IBL pipeline and render-queue core.

Shallow embedding of the repository's Rust sources:

* `f32` scalars are modelled as rationals `ℚ`.  The trigonometric functions used by
  `cgmath` when building rotation matrices are abstract parameters
  `tc ts : ℚ → ℚ` (cosine and sine); every theorem holds for all such functions.
* `cgmath::Matrix4<f32>` is modelled as `Matrix (Fin 4) (Fin 4) ℚ` with the usual
  matrix product, which is the linear-algebra semantics of `cgmath`'s `*`.
* Each module of the Rust crate is embedded in a correspondingly named namespace,
  and each definition carries a reference to the function it is translated from.
-/

namespace GlRender

/-- Matrices of shape 4×4 over `ℚ`, modelling `cgmath::Matrix4<f32>`. -/
abbrev Mat4 := Matrix (Fin 4) (Fin 4) ℚ

/-- Embeds `cgmath::Matrix4::from_translation(p)`: identity with `p` in the fourth column. -/
def mat4FromTranslation (p : Fin 3 → ℚ) : Mat4 :=
  !![1, 0, 0, p 0;
     0, 1, 0, p 1;
     0, 0, 1, p 2;
     0, 0, 0, 1]

/-- Embeds `cgmath::Matrix4::from_angle_x(θ)` with `c = cos θ`, `s = sin θ`. -/
def mat4FromAngleX (c s : ℚ) : Mat4 :=
  !![1, 0,  0, 0;
     0, c, -s, 0;
     0, s,  c, 0;
     0, 0,  0, 1]

/-- Embeds `cgmath::Matrix4::from_angle_y(θ)` with `c = cos θ`, `s = sin θ`. -/
def mat4FromAngleY (c s : ℚ) : Mat4 :=
  !![ c, 0, s, 0;
      0, 1, 0, 0;
     -s, 0, c, 0;
      0, 0, 0, 1]

/-- Embeds `cgmath::Matrix4::from_angle_z(θ)` with `c = cos θ`, `s = sin θ`. -/
def mat4FromAngleZ (c s : ℚ) : Mat4 :=
  !![c, -s, 0, 0;
     s,  c, 0, 0;
     0,  0, 1, 0;
     0,  0, 0, 1]

/-- `Rx(r.x) * Ry(r.y) * Rz(r.z)` for a rotation vector `r`, with abstract
cosine `tc` and sine `ts` — the rotation product used by both
`PbrModel::set_rotation` / `relative_rotate` (src/pbr_model.rs). -/
def rotXYZ (tc ts : ℚ → ℚ) (r : Fin 3 → ℚ) : Mat4 :=
  mat4FromAngleX (tc (r 0)) (ts (r 0)) *
    mat4FromAngleY (tc (r 1)) (ts (r 1)) *
    mat4FromAngleZ (tc (r 2)) (ts (r 2))

/-! Section: src/ibl/prefilter.rs — the specular prefilterer used by `generate_ibl_from_cubemap`. -/

namespace IblPrefilter

/-- Constant `Prefilter::MAX_MIP_LEVELS` in src/ibl/prefilter.rs. -/
def MAX_MIP_LEVELS : Nat := 5

/-- Embeds `let mip_levels = Self::MAX_MIP_LEVELS;` in `Prefilter::calculate_to_fs`
(src/ibl/prefilter.rs line 44).  The source cubemap's mip count is in scope as a
parameter but the code does not consult it. -/
def mipLevels (_sourceMipCount : Nat) : Nat := MAX_MIP_LEVELS

/-- Embeds `for level in 0..mip_levels` (src/ibl/prefilter.rs line 46): the list of mip
levels the prefilterer iterates over. -/
def levelsIterated (sourceMipCount : Nat) : List Nat :=
  List.range (mipLevels sourceMipCount)

/-- Embeds `roughness: level as f32 / mip_levels as f32` (src/ibl/prefilter.rs line 56),
exact over `ℚ` (the f32 rounding of this quotient is monotone in the quotient). -/
def roughness (level sourceMipCount : Nat) : ℚ :=
  (level : ℚ) / (mipLevels sourceMipCount : ℚ)

end IblPrefilter

/-! Section: src/ibl/specular/prefilter.rs — the variant prefilterer (not wired into ibl/mod.rs). -/

namespace SpecularPrefilter

/-- Constant `Prefilter::MAX_MIP_LEVELS` in src/ibl/specular/prefilter.rs. -/
def MAX_MIP_LEVELS : Nat := 5

/-- Embeds `let mip_levels = cubemap_mip.min(Self::MAX_MIP_LEVELS);`
(src/ibl/specular/prefilter.rs line 40). -/
def mipLevels (sourceMipCount : Nat) : Nat := min sourceMipCount MAX_MIP_LEVELS

/-- Embeds `for level in 0..mip_levels` (src/ibl/specular/prefilter.rs line 42). -/
def levelsIterated (sourceMipCount : Nat) : List Nat :=
  List.range (mipLevels sourceMipCount)

/-- Embeds `roughness: level as f32 / mip_levels as f32` (src/ibl/specular/prefilter.rs
line 49), exact over `ℚ`. -/
def roughness (level sourceMipCount : Nat) : ℚ :=
  (level : ℚ) / (mipLevels sourceMipCount : ℚ)

end SpecularPrefilter

/-! Section: src/pbr_model.rs — PbrModel. -/

/-- State of a `PbrModel` (src/pbr_model.rs lines 126-129): world position,
current rotation matrix, and — for each `PbrModelSegment` — the model matrix its
material currently holds (`PbrModelSegment::build_matrix` stores the matrix via
`self.material.set_model_matrix(model)`). -/
structure PbrModelM where
  position : Fin 3 → ℚ
  rotationMatrix : Mat4
  segments : List Mat4

namespace PbrModelM

/-- Embeds `PbrModel::build_matrix` (src/pbr_model.rs lines 296-304):
`model = from_translation(position) * rotation_matrix`, pushed into every segment. -/
def buildMatrix (m : PbrModelM) : PbrModelM :=
  let model := mat4FromTranslation m.position * m.rotationMatrix
  { m with segments := m.segments.map (fun _ => model) }

/-- Embeds `PbrModel::relative_rotate` (src/pbr_model.rs lines 363-369): overwrites
`rotation_matrix` with `Rx(r.x) * Ry(r.y) * Rz(r.z)` and rebuilds. -/
def relativeRotate (tc ts : ℚ → ℚ) (r : Fin 3 → ℚ) (m : PbrModelM) : PbrModelM :=
  buildMatrix { m with rotationMatrix := rotXYZ tc ts r }

/-- Embeds `PbrModel::set_rotation` (src/pbr_model.rs lines 371-377): overwrites
`rotation_matrix` with `Rx(r.x) * Ry(r.y) * Rz(r.z)` and rebuilds. -/
def setRotation (tc ts : ℚ → ℚ) (r : Fin 3 → ℚ) (m : PbrModelM) : PbrModelM :=
  buildMatrix { m with rotationMatrix := rotXYZ tc ts r }

end PbrModelM

/-! Section: src/renderer.rs — RenderScene. -/

/-- Entry stored by `RenderScene::publish` (src/renderer.rs lines 169-185):
`typeId` models `material.as_any().type_id()` (the concrete runtime type of the
material), `payload` identifies the vertex/index buffers and material instance of
the `RenderEntry`. -/
structure EntryM where
  typeId : Nat
  payload : Nat
deriving DecidableEq

/-- Model of `entries: HashMap<TypeId, Vec<RenderEntry>>` of a `RenderScene`
(src/renderer.rs line 162): an association list from type id to bucket.  Since a
`HashMap`'s iteration order is unspecified, theorems about `finish` quantify over
every permutation of the buckets built by `publish`. -/
abbrev Buckets := List (Nat × List EntryM)

/-- Embeds `RenderScene::publish` (src/renderer.rs lines 169-185):
`self.entries.entry(type_id).or_insert(Vec::new())` followed by `push(entry)` —
the entry is appended to the bucket of its material's type id, creating the
bucket when absent. -/
def publish : Buckets → EntryM → Buckets
  | [], e => [(e.typeId, [e])]
  | (k, v) :: rest, e =>
    if k = e.typeId then (k, v ++ [e]) :: rest
    else (k, v) :: publish rest e

/-- Buckets resulting from a sequence of `publish` calls on a fresh `RenderScene`. -/
def buildBuckets (pubs : List EntryM) : Buckets := pubs.foldl publish []

/-- Lookup of a type id's bucket, as used by `self.entries.remove(&type_id)` in
`RenderScene::finish` (src/renderer.rs line 255); an absent key yields the empty
bucket (the `None` arm of the `match`). -/
def bucketOf : Buckets → Nat → List EntryM
  | [], _ => []
  | (k, v) :: rest, t => if k = t then v else bucketOf rest t

/-- Buckets remaining after `self.entries.remove(&type_id)`. -/
def removeBucket (buckets : Buckets) (t : Nat) : Buckets :=
  buckets.filter (fun p => ! (p.1 == t))

/-- Concatenation of all buckets in iteration order, as rendered by
`for values in self.entries.into_values() { for entry in values { ... } }`
(src/renderer.rs lines 273-283). -/
def flattenBuckets (buckets : Buckets) : List EntryM :=
  (buckets.map Prod.snd).join

/-- Scene state consulted by `RenderScene::finish` (src/renderer.rs lines 79-86):
camera position, camera rotation (radians), and — when a skybox has been set —
the type id of the skybox's `SkyboxMat` material
(`skybox.get_skybox().as_any().type_id()`). -/
structure SceneDataM where
  cameraPos : Fin 3 → ℚ
  cameraRot : Fin 3 → ℚ
  skyboxType : Option Nat

/-- Order in which `RenderScene::finish` (src/renderer.rs lines 253-287) renders
the published entries: when a skybox is set its type-bucket is removed and
rendered first, then all remaining buckets are rendered in iteration order. -/
def finishOrder : Option Nat → Buckets → List EntryM
  | some t, buckets => bucketOf buckets t ++ flattenBuckets (removeBucket buckets t)
  | none, buckets => flattenBuckets buckets

/-- Embeds the world matrix computed once by `RenderScene::finish`
(src/renderer.rs lines 259-263):
`Matrix4::from_translation(camera_pos) * from_angle_x(rot[0]) * from_angle_y(rot[1]) * from_angle_z(rot[2])`. -/
def worldMatrix (tc ts : ℚ → ℚ) (s : SceneDataM) : Mat4 :=
  mat4FromTranslation s.cameraPos *
    mat4FromAngleX (tc (s.cameraRot 0)) (ts (s.cameraRot 0)) *
    mat4FromAngleY (tc (s.cameraRot 1)) (ts (s.cameraRot 1)) *
    mat4FromAngleZ (tc (s.cameraRot 2)) (ts (s.cameraRot 2))

/-- Embeds `RenderScene::finish` (src/renderer.rs lines 253-287) as the list of
draw calls it issues: each rendered entry paired with the `world` matrix passed
to its material's `render`. -/
def finishDraws (tc ts : ℚ → ℚ) (s : SceneDataM) (buckets : Buckets) :
    List (EntryM × Mat4) :=
  let world := worldMatrix tc ts s
  (finishOrder s.skyboxType buckets).map (fun e => (e, world))

/-- Invariant of the entries map: every entry sits in the bucket of its own type id. -/
def EntriesTyped (buckets : Buckets) : Prop :=
  ∀ p ∈ buckets, ∀ e ∈ p.2, e.typeId = p.1

/-- Keys of the entries map. -/
abbrev keysOf (buckets : Buckets) : List Nat := buckets.map Prod.fst

/-! Section: invariants of publish / buildBuckets. -/

theorem mem_keys_publish (b : Buckets) (e : EntryM) (x : Nat) :
    x ∈ keysOf (publish b e) ↔ x ∈ keysOf b ∨ x = e.typeId := by
  induction b with
  | nil => simp [publish, keysOf]
  | cons p rest ih =>
    obtain ⟨k, v⟩ := p
    by_cases hk : k = e.typeId
    · simp only [publish, if_pos hk, keysOf, List.map_cons, List.mem_cons]
      rw [hk]
      tauto
    · simp only [publish, if_neg hk, keysOf, List.map_cons, List.mem_cons]
      rw [ih]
      tauto

theorem keys_nodup_publish (b : Buckets) (e : EntryM) (h : (keysOf b).Nodup) :
    (keysOf (publish b e)).Nodup := by
  induction b with
  | nil => simp [publish, keysOf]
  | cons p rest ih =>
    obtain ⟨k, v⟩ := p
    simp only [keysOf, List.map_cons, List.nodup_cons] at h
    by_cases hk : k = e.typeId
    · simp only [publish, if_pos hk, keysOf, List.map_cons, List.nodup_cons]
      exact h
    · simp only [publish, if_neg hk, keysOf, List.map_cons, List.nodup_cons]
      refine ⟨fun hmem => ?_, ih h.2⟩
      rcases (mem_keys_publish rest e k).mp hmem with hm | hm
      · exact h.1 hm
      · exact hk hm

theorem entriesTyped_publish (b : Buckets) (e : EntryM) (h : EntriesTyped b) :
    EntriesTyped (publish b e) := by
  induction b with
  | nil =>
    intro p hp e' he'
    simp only [publish, List.mem_singleton] at hp
    subst hp
    simp only [List.mem_singleton] at he'
    subst he'
    rfl
  | cons q rest ih =>
    obtain ⟨k, v⟩ := q
    have hhead : ∀ e' ∈ v, e'.typeId = k := h (k, v) (List.mem_cons_self _ _)
    have hrest : EntriesTyped rest := fun p hp => h p (List.mem_cons_of_mem _ hp)
    by_cases hk : k = e.typeId
    · intro p hp e' he'
      simp only [publish, if_pos hk, List.mem_cons] at hp
      rcases hp with rfl | hp
      · simp only [List.mem_append, List.mem_singleton] at he'
        rcases he' with he' | rfl
        · exact hhead e' he'
        · exact hk.symm
      · exact hrest p hp e' he'
    · intro p hp e' he'
      simp only [publish, if_neg hk, List.mem_cons] at hp
      rcases hp with rfl | hp
      · exact hhead e' he'
      · exact ih hrest p hp e' he'

theorem bucketOf_publish (b : Buckets) (e : EntryM) (t : Nat) :
    bucketOf (publish b e) t =
      if e.typeId = t then bucketOf b t ++ [e] else bucketOf b t := by
  induction b with
  | nil =>
    by_cases ht : e.typeId = t <;> simp [publish, bucketOf, ht]
  | cons p rest ih =>
    obtain ⟨k, v⟩ := p
    by_cases hk : k = e.typeId
    · subst hk
      by_cases ht : e.typeId = t <;> simp [publish, bucketOf, ht]
    · have hpub : publish ((k, v) :: rest) e = (k, v) :: publish rest e := by
        simp [publish, hk]
      rw [hpub]
      by_cases hkt : k = t
      · subst hkt
        have ht : ¬ e.typeId = k := fun h => hk h.symm
        simp [bucketOf, ht]
      · simp [bucketOf, hkt, ih]

theorem bucketOf_foldl (pubs : List EntryM) (acc : Buckets) (t : Nat) :
    bucketOf (pubs.foldl publish acc) t =
      bucketOf acc t ++ pubs.filter (fun e => e.typeId == t) := by
  induction pubs generalizing acc with
  | nil => simp
  | cons e pubs ih =>
    rw [List.foldl_cons, ih, bucketOf_publish]
    by_cases ht : e.typeId = t
    · simp [ht, List.filter_cons, List.append_assoc]
    · simp [ht, List.filter_cons]

theorem bucketOf_buildBuckets (pubs : List EntryM) (t : Nat) :
    bucketOf (buildBuckets pubs) t = pubs.filter (fun e => e.typeId == t) := by
  rw [buildBuckets, bucketOf_foldl]
  rfl

theorem keys_nodup_foldl (pubs : List EntryM) (acc : Buckets)
    (h : (keysOf acc).Nodup) : (keysOf (pubs.foldl publish acc)).Nodup := by
  induction pubs generalizing acc with
  | nil => exact h
  | cons e pubs ih => exact ih _ (keys_nodup_publish acc e h)

theorem entriesTyped_foldl (pubs : List EntryM) (acc : Buckets)
    (h : EntriesTyped acc) : EntriesTyped (pubs.foldl publish acc) := by
  induction pubs generalizing acc with
  | nil => exact h
  | cons e pubs ih => exact ih _ (entriesTyped_publish acc e h)

theorem buildBuckets_keys_nodup (pubs : List EntryM) :
    (keysOf (buildBuckets pubs)).Nodup :=
  keys_nodup_foldl pubs [] (by simp [keysOf])

theorem buildBuckets_entriesTyped (pubs : List EntryM) :
    EntriesTyped (buildBuckets pubs) :=
  entriesTyped_foldl pubs [] (fun p hp => absurd hp (List.not_mem_nil p))

/-! Section: lookup facts transported along a permutation of the buckets. -/

theorem bucketOf_eq_nil_of_not_mem (b : Buckets) (t : Nat) (h : t ∉ keysOf b) :
    bucketOf b t = [] := by
  induction b with
  | nil => rfl
  | cons p rest ih =>
    obtain ⟨k, v⟩ := p
    simp only [keysOf, List.map_cons, List.mem_cons] at h
    push_neg at h
    simp only [bucketOf, if_neg (fun hk : k = t => h.1 hk.symm)]
    exact ih h.2

theorem mem_of_bucketOf_ne_nil (b : Buckets) (t : Nat) (h : bucketOf b t ≠ []) :
    (t, bucketOf b t) ∈ b := by
  induction b with
  | nil => exact absurd rfl h
  | cons p rest ih =>
    obtain ⟨k, v⟩ := p
    by_cases hk : k = t
    · subst hk
      simp [bucketOf]
    · simp only [bucketOf, if_neg hk] at h ⊢
      exact List.mem_cons_of_mem _ (ih h)

theorem bucketOf_eq_of_mem (b : Buckets) (k : Nat) (v : List EntryM)
    (hnd : (keysOf b).Nodup) (hmem : (k, v) ∈ b) : bucketOf b k = v := by
  induction b with
  | nil => exact absurd hmem (List.not_mem_nil _)
  | cons p rest ih =>
    obtain ⟨k', v'⟩ := p
    simp only [keysOf, List.map_cons, List.nodup_cons] at hnd
    rcases List.mem_cons.mp hmem with h | h
    · injection h with h1 h2
      subst h1
      subst h2
      simp [bucketOf]
    · have hk : ¬ k' = k := by
        intro he
        exact hnd.1 (he ▸ List.mem_map_of_mem Prod.fst h)
      simp only [bucketOf, if_neg hk]
      exact ih hnd.2 h

theorem bucketOf_perm (b1 b2 : Buckets) (t : Nat) (hperm : b1.Perm b2)
    (hnd : (keysOf b2).Nodup) : bucketOf b1 t = bucketOf b2 t := by
  have hnd1 : (keysOf b1).Nodup := ((hperm.map Prod.fst).nodup_iff).mpr hnd
  by_cases h1 : bucketOf b1 t = []
  · by_cases h2 : bucketOf b2 t = []
    · rw [h1, h2]
    · exact bucketOf_eq_of_mem b1 t (bucketOf b2 t) hnd1
        (hperm.mem_iff.mpr (mem_of_bucketOf_ne_nil b2 t h2))
  · exact (bucketOf_eq_of_mem b2 t (bucketOf b1 t) hnd
      (hperm.mem_iff.mp (mem_of_bucketOf_ne_nil b1 t h1))).symm

theorem entries_of_bucketOf (b : Buckets) (t : Nat) (htyped : EntriesTyped b) :
    ∀ e ∈ bucketOf b t, e.typeId = t := by
  intro e he
  by_cases h : bucketOf b t = []
  · rw [h] at he
    exact absurd he (List.not_mem_nil e)
  · exact htyped (t, bucketOf b t) (mem_of_bucketOf_ne_nil b t h) e he

/-! Section: facts about removeBucket and flattenBuckets. -/

theorem mem_of_mem_removeBucket (b : Buckets) (t : Nat) (p : Nat × List EntryM)
    (h : p ∈ removeBucket b t) : p ∈ b ∧ p.1 ≠ t := by
  have := List.mem_filter.mp h
  refine ⟨this.1, ?_⟩
  simpa using this.2

theorem entriesTyped_removeBucket (b : Buckets) (t : Nat)
    (h : EntriesTyped b) : EntriesTyped (removeBucket b t) :=
  fun p hp => h p (mem_of_mem_removeBucket b t p hp).1

theorem keys_nodup_removeBucket (b : Buckets) (t : Nat)
    (h : (keysOf b).Nodup) : (keysOf (removeBucket b t)).Nodup := by
  have hsub : List.Sublist (removeBucket b t) b := List.filter_sublist b
  exact (hsub.map Prod.fst).nodup h

theorem bucketOf_removeBucket_self (b : Buckets) (t : Nat) :
    bucketOf (removeBucket b t) t = [] := by
  apply bucketOf_eq_nil_of_not_mem
  intro hmem
  obtain ⟨p, hp, hfst⟩ := List.mem_map.mp hmem
  exact (mem_of_mem_removeBucket b t p hp).2 hfst

theorem bucketOf_removeBucket_ne (b : Buckets) (t t' : Nat) (h : t ≠ t') :
    bucketOf (removeBucket b t') t = bucketOf b t := by
  induction b with
  | nil => rfl
  | cons p rest ih =>
    obtain ⟨k, v⟩ := p
    by_cases hk : k = t'
    · have hkt : ¬ k = t := fun he => h (he.symm.trans hk)
      have hfil : removeBucket ((k, v) :: rest) t' = removeBucket rest t' := by
        simp [removeBucket, List.filter_cons, hk]
      rw [hfil, ih]
      simp [bucketOf, hkt]
    · have hfil : removeBucket ((k, v) :: rest) t' = (k, v) :: removeBucket rest t' := by
        simp [removeBucket, List.filter_cons, hk]
      rw [hfil]
      by_cases hkt : k = t
      · simp [bucketOf, hkt]
      · simp [bucketOf, hkt, ih]

theorem mem_flattenBuckets (b : Buckets) (e : EntryM) :
    e ∈ flattenBuckets b ↔ ∃ p ∈ b, e ∈ p.2 := by
  simp only [flattenBuckets, List.mem_join, List.mem_map]
  constructor
  · rintro ⟨l, ⟨p, hp, rfl⟩, he⟩
    exact ⟨p, hp, he⟩
  · rintro ⟨p, hp, he⟩
    exact ⟨p.2, ⟨p, hp, rfl⟩, he⟩

theorem filter_flattenBuckets (b : Buckets) (t : Nat)
    (htyped : EntriesTyped b) (hnd : (keysOf b).Nodup) :
    (flattenBuckets b).filter (fun e => e.typeId == t) = bucketOf b t := by
  induction b with
  | nil => rfl
  | cons p rest ih =>
    obtain ⟨k, v⟩ := p
    have hhead : ∀ e ∈ v, e.typeId = k := htyped (k, v) (List.mem_cons_self _ _)
    have hrest : EntriesTyped rest := fun p hp => htyped p (List.mem_cons_of_mem _ hp)
    simp only [keysOf, List.map_cons, List.nodup_cons] at hnd
    have hflat : flattenBuckets ((k, v) :: rest) = v ++ flattenBuckets rest := by
      simp [flattenBuckets]
    rw [hflat, List.filter_append, ih hrest hnd.2]
    by_cases hk : k = t
    · subst hk
      have hv : v.filter (fun e => e.typeId == k) = v :=
        List.filter_eq_self.mpr (fun e he => by simp [hhead e he])
      have hnil : bucketOf rest k = [] :=
        bucketOf_eq_nil_of_not_mem rest k hnd.1
      simp [hv, hnil, bucketOf]
    · have hv : v.filter (fun e => e.typeId == t) = [] :=
        List.filter_eq_nil.mpr (fun e he => by simp [hhead e he, hk])
      simp [hv, bucketOf, hk]

/-! Section: claims C3, C4, C5. -/

/-- Claim C3: when a skybox is set, `RenderScene::finish` removes the bucket keyed
by the skybox material's concrete type and renders every entry of it — which is
exactly the published entries of that type, in publish order — before rendering
any entry of any other bucket, for every iteration order of the hash map; no
entry rendered afterwards has the skybox material's type. -/
theorem finish_renders_skybox_bucket_first (pubs : List EntryM) (order : Buckets)
    (t : Nat) (hperm : order.Perm (buildBuckets pubs)) :
    finishOrder (some t) order =
      pubs.filter (fun e => e.typeId == t) ++ flattenBuckets (removeBucket order t) ∧
      ∀ e ∈ flattenBuckets (removeBucket order t), e.typeId ≠ t := by
  have hnd : (keysOf order).Nodup :=
    ((hperm.map Prod.fst).nodup_iff).mpr (buildBuckets_keys_nodup pubs)
  have htyped : EntriesTyped order :=
    fun p hp => buildBuckets_entriesTyped pubs p (hperm.mem_iff.mp hp)
  constructor
  · show bucketOf order t ++ _ = _
    rw [bucketOf_perm order (buildBuckets pubs) t hperm (buildBuckets_keys_nodup pubs),
      bucketOf_buildBuckets]
  · intro e he
    obtain ⟨p, hp, hep⟩ := (mem_flattenBuckets _ e).mp he
    have := entriesTyped_removeBucket order t htyped p hp e hep
    rw [this]
    exact (mem_of_mem_removeBucket order t p hp).2

/-- Witness for `finish_renders_skybox_bucket_first`: three published entries, the
skybox material of type 1, and the hash map iterated with the type-2 bucket
first. -/
theorem finish_renders_skybox_bucket_first_witness :
    (([(2, [EntryM.mk 2 20]), (1, [EntryM.mk 1 10, EntryM.mk 1 11])] : Buckets).Perm
        (buildBuckets [EntryM.mk 1 10, EntryM.mk 2 20, EntryM.mk 1 11])) ∧
      (finishOrder (some 1) [(2, [EntryM.mk 2 20]), (1, [EntryM.mk 1 10, EntryM.mk 1 11])] =
          ([EntryM.mk 1 10, EntryM.mk 2 20, EntryM.mk 1 11].filter (fun e => e.typeId == 1)) ++
            flattenBuckets (removeBucket [(2, [EntryM.mk 2 20]), (1, [EntryM.mk 1 10, EntryM.mk 1 11])] 1) ∧
        ∀ e ∈ flattenBuckets (removeBucket [(2, [EntryM.mk 2 20]), (1, [EntryM.mk 1 10, EntryM.mk 1 11])] 1),
          e.typeId ≠ 1) :=
  ⟨by decide,
    finish_renders_skybox_bucket_first [EntryM.mk 1 10, EntryM.mk 2 20, EntryM.mk 1 11]
      [(2, [EntryM.mk 2 20]), (1, [EntryM.mk 1 10, EntryM.mk 1 11])] 1 (by decide)⟩

/-- Claim C5: for every sequence of `publish` calls, every skybox setting, and
every iteration order of the hash map, the entries of one concrete material type
are rendered by `finish` exactly in the order they were published (the rendered
sequence restricted to a type equals the publish sequence restricted to that
type); the cross-type order is quantified over all permutations and hence
unconstrained. -/
theorem finish_preserves_publish_order_within_type (pubs : List EntryM)
    (order : Buckets) (st : Option Nat) (t : Nat)
    (hperm : order.Perm (buildBuckets pubs)) :
    (finishOrder st order).filter (fun e => e.typeId == t) =
      pubs.filter (fun e => e.typeId == t) := by
  have hnd : (keysOf order).Nodup :=
    ((hperm.map Prod.fst).nodup_iff).mpr (buildBuckets_keys_nodup pubs)
  have htyped : EntriesTyped order :=
    fun p hp => buildBuckets_entriesTyped pubs p (hperm.mem_iff.mp hp)
  have hmain : bucketOf order t = pubs.filter (fun e => e.typeId == t) := by
    rw [bucketOf_perm order (buildBuckets pubs) t hperm (buildBuckets_keys_nodup pubs),
      bucketOf_buildBuckets]
  cases st with
  | none =>
    rw [show finishOrder none order = flattenBuckets order from rfl,
      filter_flattenBuckets order t htyped hnd, hmain]
  | some t' =>
    have hremove_typed := entriesTyped_removeBucket order t' htyped
    have hremove_nd := keys_nodup_removeBucket order t' hnd
    rw [show finishOrder (some t') order =
        bucketOf order t' ++ flattenBuckets (removeBucket order t') from rfl,
      List.filter_append, filter_flattenBuckets _ t hremove_typed hremove_nd]
    by_cases ht : t' = t
    · subst ht
      have hb : (bucketOf order t').filter (fun e => e.typeId == t') = bucketOf order t' :=
        List.filter_eq_self.mpr
          (fun e he => by simp [entries_of_bucketOf order t' htyped e he])
      rw [hb, bucketOf_removeBucket_self, List.append_nil, hmain]
    · have hb : (bucketOf order t').filter (fun e => e.typeId == t) = [] :=
        List.filter_eq_nil.mpr
          (fun e he => by simp [entries_of_bucketOf order t' htyped e he, ht])
      rw [hb, List.nil_append, bucketOf_removeBucket_ne order t t' (fun h => ht h.symm),
        hmain]

/-- Witness for `finish_preserves_publish_order_within_type`: the two entries of
type 1 are rendered in publish order even when the hash map iterates the type-2
bucket first and the skybox has type 2. -/
theorem finish_preserves_publish_order_within_type_witness :
    (([(2, [EntryM.mk 2 20]), (1, [EntryM.mk 1 10, EntryM.mk 1 11])] : Buckets).Perm
        (buildBuckets [EntryM.mk 1 10, EntryM.mk 2 20, EntryM.mk 1 11])) ∧
      (finishOrder (some 2)
            [(2, [EntryM.mk 2 20]), (1, [EntryM.mk 1 10, EntryM.mk 1 11])]).filter
          (fun e => e.typeId == 1) =
        ([EntryM.mk 1 10, EntryM.mk 2 20, EntryM.mk 1 11].filter (fun e => e.typeId == 1)) :=
  ⟨by decide,
    finish_preserves_publish_order_within_type
      [EntryM.mk 1 10, EntryM.mk 2 20, EntryM.mk 1 11]
      [(2, [EntryM.mk 2 20]), (1, [EntryM.mk 1 10, EntryM.mk 1 11])] (some 2) 1 (by decide)⟩

/-- Claim C4: `RenderScene::finish` computes the world matrix once, as
`from_translation(cameraPos) * Rx(rot.x) * Ry(rot.y) * Rz(rot.z)`, and every draw
call it issues — skybox and non-skybox alike — receives exactly that matrix. -/
theorem finish_world_matrix_uniform (tc ts : ℚ → ℚ) (s : SceneDataM)
    (buckets : Buckets) (d : EntryM × Mat4) (hd : d ∈ finishDraws tc ts s buckets) :
    d.2 = mat4FromTranslation s.cameraPos *
        mat4FromAngleX (tc (s.cameraRot 0)) (ts (s.cameraRot 0)) *
        mat4FromAngleY (tc (s.cameraRot 1)) (ts (s.cameraRot 1)) *
        mat4FromAngleZ (tc (s.cameraRot 2)) (ts (s.cameraRot 2)) := by
  obtain ⟨e, _, rfl⟩ := List.mem_map.mp hd
  rfl

/-- Witness for `finish_world_matrix_uniform` at a concrete scene with one entry. -/
theorem finish_world_matrix_uniform_witness :
    ((EntryM.mk 7 0, worldMatrix (fun _ => 1) (fun _ => 0)
          (SceneDataM.mk (fun _ => 2) (fun _ => 0) none)) ∈
        finishDraws (fun _ => 1) (fun _ => 0)
          (SceneDataM.mk (fun _ => 2) (fun _ => 0) none) [(7, [EntryM.mk 7 0])]) ∧
      (EntryM.mk 7 0, worldMatrix (fun _ => 1) (fun _ => 0)
          (SceneDataM.mk (fun _ => 2) (fun _ => 0) none)).2 =
        mat4FromTranslation (fun _ => (2 : ℚ)) *
          mat4FromAngleX 1 0 * mat4FromAngleY 1 0 * mat4FromAngleZ 1 0 :=
  ⟨List.mem_singleton.mpr rfl,
    finish_world_matrix_uniform (fun _ => 1) (fun _ => 0)
      (SceneDataM.mk (fun _ => 2) (fun _ => 0) none) [(7, [EntryM.mk 7 0])]
      (EntryM.mk 7 0, worldMatrix (fun _ => 1) (fun _ => 0)
        (SceneDataM.mk (fun _ => 2) (fun _ => 0) none))
      (List.mem_singleton.mpr rfl)⟩

/-! Section: src/material/pbr.rs — the PBR material's render path (src/skybox.rs state). -/

/-- Embeds `CubemapType` (src/cubemap_loader.rs lines 19-22); the payload stands
for the underlying GPU texture. -/
inductive CubemapTypeM
  | cubemap (id : Nat)
  | srgbCubemap (id : Nat)
deriving DecidableEq

/-- Embeds the IBL-related state of a `Skybox` (src/skybox.rs lines 20-27): the
optional irradiance map (`ibl`), prefilter map and BRDF lookup texture.  The
`SkyboxMat` and its cubemap are always present and need no representation. -/
structure SkyboxM where
  ibl : Option CubemapTypeM
  prefilter : Option CubemapTypeM
  brdf : Option Nat
deriving DecidableEq

/-- Outcome of one `Material::render` call: `panicked` models an `unwrap()` of
`None`, `skipped` a return without issuing a draw call, `drew` one draw call. -/
inductive RenderOutcome
  | panicked
  | skipped
  | drew
deriving DecidableEq

/-- Embeds `PBR::render` (src/material/pbr.rs lines 238-310) as a function of the
scene's optional skybox.  In source order: `scene_data.get_skybox().unwrap()`
panics when no skybox is set; `skybox_obj.get_prefilter().as_ref().unwrap()`
panics when the prefilter is unset; the `match` sends `CubemapType::Cubemap` to
the draw arm and everything else (`SrgbCubemap`) to `_ => return`; inside the
draw arm the `uniform!` block evaluates `get_ibl().as_ref().unwrap()` and
`get_brdf().as_ref().unwrap()`, panicking when either is unset, and otherwise
one draw call is issued. -/
def pbrRender : Option SkyboxM → RenderOutcome
  | none => RenderOutcome.panicked
  | some s =>
    match s.prefilter with
    | none => RenderOutcome.panicked
    | some (CubemapTypeM.cubemap _) =>
      match s.ibl, s.brdf with
      | some _, some _ => RenderOutcome.drew
      | _, _ => RenderOutcome.panicked
    | some (CubemapTypeM.srgbCubemap _) => RenderOutcome.skipped

/-- Claim C1, counterexample: with no skybox in the scene context, `PBR::render`
panics on `scene_data.get_skybox().unwrap()` (src/material/pbr.rs line 253);
it is not a silent no-op. -/
theorem pbr_render_no_skybox_panics :
    pbrRender none = RenderOutcome.panicked ∧
      pbrRender none ≠ RenderOutcome.skipped := by
  decide

/-- Claim C1, amended: `PBR::render` silently skips its draw call exactly when a
skybox is set and its prefilter map is present but is the `SrgbCubemap` variant;
it panics exactly when the skybox is absent, or its prefilter is unset, or the
prefilter is a plain `Cubemap` but the irradiance map or BRDF LUT is unset; in
the remaining case it draws. -/
theorem pbr_render_characterization (sb : Option SkyboxM) :
    (pbrRender sb = RenderOutcome.skipped ↔
        ∃ s id, sb = some s ∧ s.prefilter = some (CubemapTypeM.srgbCubemap id)) ∧
      (pbrRender sb = RenderOutcome.drew ↔
        ∃ s pid, sb = some s ∧ s.prefilter = some (CubemapTypeM.cubemap pid) ∧
          s.ibl ≠ none ∧ s.brdf ≠ none) := by
  cases sb with
  | none => simp [pbrRender]
  | some s =>
    obtain ⟨ibl, pf, brdf⟩ := s
    cases pf with
    | none => simp [pbrRender]
    | some c =>
      cases c with
      | cubemap pid =>
        cases ibl with
        | none => simp [pbrRender]
        | some i =>
          cases brdf with
          | none => simp [pbrRender]
          | some b => simp [pbrRender]
      | srgbCubemap sid => simp [pbrRender]

/-! Section: claims C2, C9, C10. -/

/-- Claim C2, counterexample: on a source cubemap with 2 mip levels the prefilterer
of src/ibl/prefilter.rs iterates over 5 levels, not `min 5 2 = 2` as the claim
states. -/
theorem prefilter_levels_not_min_counterexample :
    ¬ (IblPrefilter.levelsIterated 2).length = min 5 2 := by
  decide

/-- Claim C2, amended: the prefilterer wired into `generate_ibl_from_cubemap`
(src/ibl/prefilter.rs) always iterates over exactly `MAX_MIP_LEVELS = 5` mip
levels, ignoring the source cubemap's mip count; only the unwired variant in
src/ibl/specular/prefilter.rs iterates over `min (5, sourceCubemap.mipCount)`
levels. -/
theorem prefilter_levels_amended (sourceMipCount : Nat) :
    (IblPrefilter.levelsIterated sourceMipCount).length = 5 ∧
      (SpecularPrefilter.levelsIterated sourceMipCount).length = min 5 sourceMipCount := by
  constructor
  · simp [IblPrefilter.levelsIterated, IblPrefilter.mipLevels, IblPrefilter.MAX_MIP_LEVELS]
  · simp [SpecularPrefilter.levelsIterated, SpecularPrefilter.mipLevels,
      SpecularPrefilter.MAX_MIP_LEVELS, Nat.min_comm]

/-- Claim C9: for both prefilterer variants, the roughness uniform assigned to mip
level `L` is `L / mipLevels`, it is non-decreasing in `L`, and it is `0` at level
`0`. -/
theorem prefilter_roughness_monotone (m L1 L2 : Nat) (h : L1 ≤ L2) :
    IblPrefilter.roughness L1 m ≤ IblPrefilter.roughness L2 m ∧
      SpecularPrefilter.roughness L1 m ≤ SpecularPrefilter.roughness L2 m ∧
      IblPrefilter.roughness 0 m = 0 ∧
      SpecularPrefilter.roughness 0 m = 0 ∧
      IblPrefilter.roughness L1 m = (L1 : ℚ) / (IblPrefilter.mipLevels m : ℚ) ∧
      SpecularPrefilter.roughness L1 m = (L1 : ℚ) / (SpecularPrefilter.mipLevels m : ℚ) := by
  refine ⟨?_, ?_, ?_, ?_, rfl, rfl⟩
  · exact div_le_div_of_nonneg_right (by exact_mod_cast h) (by exact_mod_cast Nat.zero_le _)
  · exact div_le_div_of_nonneg_right (by exact_mod_cast h) (by exact_mod_cast Nat.zero_le _)
  · simp [IblPrefilter.roughness]
  · simp [SpecularPrefilter.roughness]

/-- Witness for `prefilter_roughness_monotone` at `m = 3`, `L1 = 1`, `L2 = 4`. -/
theorem prefilter_roughness_monotone_witness :
    (1 ≤ 4) ∧
      (IblPrefilter.roughness 1 3 ≤ IblPrefilter.roughness 4 3 ∧
        SpecularPrefilter.roughness 1 3 ≤ SpecularPrefilter.roughness 4 3 ∧
        IblPrefilter.roughness 0 3 = 0 ∧
        SpecularPrefilter.roughness 0 3 = 0 ∧
        IblPrefilter.roughness 1 3 = (1 : ℚ) / (IblPrefilter.mipLevels 3 : ℚ) ∧
        SpecularPrefilter.roughness 1 3 = (1 : ℚ) / (SpecularPrefilter.mipLevels 3 : ℚ)) :=
  ⟨by decide, prefilter_roughness_monotone 3 1 4 (by decide)⟩

/-- Claim C10: `PbrModel::relative_rotate` produces exactly the same model state as
`PbrModel::set_rotation` (the rotation matrix is recomputed from the argument
alone and replaces the current rotation), so two successive `relative_rotate`
calls are equivalent to a single `set_rotation` with the second argument. -/
theorem relative_rotate_eq_set_rotation (tc ts : ℚ → ℚ) (r r1 r2 : Fin 3 → ℚ)
    (m : PbrModelM) :
    PbrModelM.relativeRotate tc ts r m = PbrModelM.setRotation tc ts r m ∧
      PbrModelM.relativeRotate tc ts r2 (PbrModelM.relativeRotate tc ts r1 m) =
        PbrModelM.setRotation tc ts r2 m := by
  refine ⟨rfl, ?_⟩
  simp [PbrModelM.relativeRotate, PbrModelM.setRotation, PbrModelM.buildMatrix,
    List.map_map, Function.comp]

/-! Section: src/utils/texture_loader.rs — the HDR mirror of TextureLoader::from_fs_hdr. -/

/-- Functional update swapping the values of `f` at indices `i` and `j`; models
the statement pair `pixels[index] = p2; pixels[index2] = p;` of the mirror loop. -/
def swapAt {α : Type} (f : Nat → α) (i j : Nat) : Nat → α :=
  fun k => if k = i then f j else if k = j then f i else f k

/-- Embeds the mirror loop of `TextureLoader::from_fs_hdr`
(src/utils/texture_loader.rs lines 59-69): `for w in 0..width / 2 { for h in
0..height { ... } }` swapping the pixels at flat indices `w + h * width` and
`h * width + (width - w - 1)`.  The decoded pixel buffer (a `Vec` of
`width * height` rgb pixels) is modelled as a total function on flat indices;
the loop only touches indices below `width * height`. -/
def hdrMirror {α : Type} (width height : Nat) (pixels : Nat → α) : Nat → α :=
  (List.range (width / 2)).foldl
    (fun acc w =>
      (List.range height).foldl
        (fun acc2 h => swapAt acc2 (w + h * width) (h * width + (width - w - 1)))
        acc)
    pixels

/-- Fold of `swapAt` over a list of index pairs. -/
def swapAll {α : Type} (ps : List (Nat × Nat)) (f : Nat → α) : Nat → α :=
  ps.foldl (fun g p => swapAt g p.1 p.2) f

/-- Index pairs swapped by the mirror loop, outer loop first. -/
def mirrorPairs (width height : Nat) : List (Nat × Nat) :=
  (List.range (width / 2)).flatMap
    (fun w => (List.range height).map
      (fun h => (w + h * width, h * width + (width - w - 1))))

/-- All indices occurring in a list of pairs. -/
def pairIdx (ps : List (Nat × Nat)) : List Nat :=
  ps.flatMap (fun p => [p.1, p.2])

theorem swapAll_append {α : Type} (ps qs : List (Nat × Nat)) (f : Nat → α) :
    swapAll (ps ++ qs) f = swapAll qs (swapAll ps f) := by
  simp [swapAll, List.foldl_append]

theorem hdrMirror_eq_swapAll {α : Type} (width height : Nat) (pixels : Nat → α) :
    hdrMirror width height pixels = swapAll (mirrorPairs width height) pixels := by
  suffices h : ∀ (ws : List Nat) (f : Nat → α),
      ws.foldl
        (fun acc w =>
          (List.range height).foldl
            (fun acc2 h => swapAt acc2 (w + h * width) (h * width + (width - w - 1)))
            acc)
        f =
      swapAll
        (ws.flatMap (fun w => (List.range height).map
          (fun h => (w + h * width, h * width + (width - w - 1)))))
        f by
    exact h (List.range (width / 2)) pixels
  intro ws
  induction ws with
  | nil => intro f; rfl
  | cons w ws ih =>
    intro f
    rw [List.foldl_cons, List.flatMap_cons, swapAll_append, ih]
    simp [swapAll, List.foldl_map]

theorem mem_pairIdx {ps : List (Nat × Nat)} {x : Nat} :
    x ∈ pairIdx ps ↔ ∃ p ∈ ps, x = p.1 ∨ x = p.2 := by
  simp [pairIdx, List.mem_flatMap]

theorem swapAll_of_not_mem {α : Type} (ps : List (Nat × Nat)) (f : Nat → α)
    (k : Nat) (h : k ∉ pairIdx ps) : swapAll ps f k = f k := by
  induction ps generalizing f with
  | nil => rfl
  | cons p ps ih =>
    have hk1 : k ≠ p.1 := fun he => h (mem_pairIdx.mpr ⟨p, List.mem_cons_self _ _, Or.inl he⟩)
    have hk2 : k ≠ p.2 := fun he => h (mem_pairIdx.mpr ⟨p, List.mem_cons_self _ _, Or.inr he⟩)
    have htail : k ∉ pairIdx ps := fun hm => by
      obtain ⟨q, hq, hxq⟩ := mem_pairIdx.mp hm
      exact h (mem_pairIdx.mpr ⟨q, List.mem_cons_of_mem _ hq, hxq⟩)
    show swapAll ps (swapAt f p.1 p.2) k = f k
    rw [ih _ htail]
    simp [swapAt, hk1, hk2]

theorem pairIdx_cons_nodup {p : Nat × Nat} {ps : List (Nat × Nat)}
    (h : (pairIdx (p :: ps)).Nodup) :
    p.1 ∉ pairIdx ps ∧ p.2 ∉ pairIdx ps ∧ p.1 ≠ p.2 ∧ (pairIdx ps).Nodup := by
  have : pairIdx (p :: ps) = p.1 :: p.2 :: pairIdx ps := by
    simp [pairIdx]
  rw [this] at h
  simp only [List.nodup_cons, List.mem_cons] at h
  refine ⟨fun hm => h.1 (Or.inr hm), h.2.1, fun he => h.1 (Or.inl he), h.2.2⟩

theorem swapAll_fst {α : Type} (ps : List (Nat × Nat)) (f : Nat → α) (i j : Nat)
    (hmem : (i, j) ∈ ps) (hnd : (pairIdx ps).Nodup) : swapAll ps f i = f j := by
  induction ps generalizing f with
  | nil => exact absurd hmem (List.not_mem_nil _)
  | cons q ps ih =>
    obtain ⟨h1, h2, h12, htail⟩ := pairIdx_cons_nodup hnd
    rcases List.mem_cons.mp hmem with he | hm
    · subst he
      show swapAll ps (swapAt f i j) i = f j
      rw [swapAll_of_not_mem ps _ i h1]
      simp [swapAt]
    · have hi : i ∈ pairIdx ps := mem_pairIdx.mpr ⟨(i, j), hm, Or.inl rfl⟩
      have hj : j ∈ pairIdx ps := mem_pairIdx.mpr ⟨(i, j), hm, Or.inr rfl⟩
      have hiq1 : i ≠ q.1 := fun he => h1 (he ▸ hi)
      have hiq2 : i ≠ q.2 := fun he => h2 (he ▸ hi)
      have hjq1 : j ≠ q.1 := fun he => h1 (he ▸ hj)
      have hjq2 : j ≠ q.2 := fun he => h2 (he ▸ hj)
      show swapAll ps (swapAt f q.1 q.2) i = f j
      rw [ih _ hm htail]
      simp [swapAt, hjq1, hjq2]

theorem swapAll_snd {α : Type} (ps : List (Nat × Nat)) (f : Nat → α) (i j : Nat)
    (hmem : (i, j) ∈ ps) (hnd : (pairIdx ps).Nodup) : swapAll ps f j = f i := by
  induction ps generalizing f with
  | nil => exact absurd hmem (List.not_mem_nil _)
  | cons q ps ih =>
    obtain ⟨h1, h2, h12, htail⟩ := pairIdx_cons_nodup hnd
    rcases List.mem_cons.mp hmem with he | hm
    · subst he
      show swapAll ps (swapAt f i j) j = f i
      rw [swapAll_of_not_mem ps _ j h2]
      have hji : j ≠ i := fun he => h12 he.symm
      simp [swapAt, hji]
    · have hi : i ∈ pairIdx ps := mem_pairIdx.mpr ⟨(i, j), hm, Or.inl rfl⟩
      have hj : j ∈ pairIdx ps := mem_pairIdx.mpr ⟨(i, j), hm, Or.inr rfl⟩
      have hiq1 : i ≠ q.1 := fun he => h1 (he ▸ hi)
      have hiq2 : i ≠ q.2 := fun he => h2 (he ▸ hi)
      show swapAll ps (swapAt f q.1 q.2) j = f i
      rw [ih _ hm htail]
      simp [swapAt, hiq1, hiq2]

theorem flatIdx_inj {width c1 c2 h1 h2 : Nat} (hc1 : c1 < width) (hc2 : c2 < width)
    (h : c1 + h1 * width = c2 + h2 * width) : c1 = c2 ∧ h1 = h2 := by
  have hw : 0 < width := Nat.lt_of_le_of_lt (Nat.zero_le c1) hc1
  have hc : c1 = c2 := by
    have hmod := congrArg (fun x => x % width) h
    simpa [Nat.add_mul_mod_self_right, Nat.mod_eq_of_lt hc1, Nat.mod_eq_of_lt hc2]
      using hmod
  refine ⟨hc, ?_⟩
  subst hc
  exact Nat.eq_of_mul_eq_mul_right hw (Nat.add_left_cancel h)

theorem mem_mirrorPairs_iff {width height : Nat} {p : Nat × Nat} :
    p ∈ mirrorPairs width height ↔
      ∃ w h, w < width / 2 ∧ h < height ∧
        p = (w + h * width, h * width + (width - w - 1)) := by
  simp only [mirrorPairs, List.mem_flatMap, List.mem_map, List.mem_range]
  constructor
  · rintro ⟨w, hw, h, hh, rfl⟩
    exact ⟨w, h, hw, hh, rfl⟩
  · rintro ⟨w, h, hw, hh, rfl⟩
    exact ⟨w, hw, h, hh, rfl⟩

theorem pairIdx_mirrorPairs_nodup (width height : Nat) :
    (pairIdx (mirrorPairs width height)).Nodup := by
  have hform : pairIdx (mirrorPairs width height) =
      (List.range (width / 2)).flatMap (fun w =>
        (List.range height).flatMap (fun h =>
          [w + h * width, h * width + (width - w - 1)])) := by
    simp [pairIdx, mirrorPairs, List.flatMap_assoc, List.flatMap_map]
  rw [hform]
  apply List.nodup_flatMap.mpr
  constructor
  · intro w hw
    rw [List.mem_range] at hw
    apply List.nodup_flatMap.mpr
    constructor
    · intro h hh
      rw [List.mem_range] at hh
      have : w + h * width ≠ h * width + (width - w - 1) := by
        intro he
        rw [Nat.add_comm w (h * width)] at he
        have := Nat.add_left_cancel he
        omega
      simp [this]
    · apply (List.pairwise_lt_range height).imp_of_mem
      intro a b ha hb hab
      rw [List.mem_range] at ha hb
      intro x hxa hxb
      have hwlt : w < width := by omega
      have hmir : width - w - 1 < width := by omega
      simp only [List.mem_cons, List.mem_singleton, List.not_mem_nil, or_false] at hxa hxb
      rcases hxa with rfl | rfl <;> rcases hxb with he | he
      · exact absurd (flatIdx_inj hwlt hwlt he).2 (by omega)
      · rw [Nat.add_comm (b * width) (width - w - 1)] at he
        exact absurd (flatIdx_inj hwlt hmir he).2 (by omega)
      · rw [Nat.add_comm (a * width) (width - w - 1)] at he
        exact absurd (flatIdx_inj hmir hwlt he).2 (by omega)
      · rw [Nat.add_comm (a * width) (width - w - 1),
          Nat.add_comm (b * width) (width - w - 1)] at he
        exact absurd (flatIdx_inj hmir hmir he).2 (by omega)
  · apply (List.pairwise_lt_range (width / 2)).imp_of_mem
    intro w1 w2 hw1 hw2 hlt
    rw [List.mem_range] at hw1 hw2
    intro x hx1 hx2
    obtain ⟨a, ha, hxa⟩ := List.mem_flatMap.mp hx1
    obtain ⟨b, hb, hxb⟩ := List.mem_flatMap.mp hx2
    rw [List.mem_range] at ha hb
    have hw1lt : w1 < width := by omega
    have hw2lt : w2 < width := by omega
    have hm1 : width - w1 - 1 < width := by omega
    have hm2 : width - w2 - 1 < width := by omega
    simp only [List.mem_cons, List.mem_singleton, List.not_mem_nil, or_false] at hxa hxb
    rcases hxa with rfl | rfl <;> rcases hxb with he | he
    · exact absurd (flatIdx_inj hw1lt hw2lt he).1 (by omega)
    · rw [Nat.add_comm (b * width) (width - w2 - 1)] at he
      exact absurd (flatIdx_inj hw1lt hm2 he).1 (by omega)
    · rw [Nat.add_comm (a * width) (width - w1 - 1)] at he
      exact absurd (flatIdx_inj hm1 hw2lt he).1 (by omega)
    · rw [Nat.add_comm (a * width) (width - w1 - 1),
        Nat.add_comm (b * width) (width - w2 - 1)] at he
      exact absurd (flatIdx_inj hm1 hm2 he).1 (by omega)

/-- Claim C8, amended (positive part): the mirror loop of
`TextureLoader::from_fs_hdr` mirrors the decoded pixel buffer about its vertical
center axis exactly once before the upload — for every row `h < height` and
column `w < width`, the uploaded pixel at `(w, h)` is the decoded pixel at
`(width - 1 - w, h)`. -/
theorem from_fs_hdr_mirror_pixel {α : Type} (width height : Nat)
    (pixels : Nat → α) (w h : Nat) (hw : w < width) (hh : h < height) :
    hdrMirror width height pixels (w + h * width) =
      pixels ((width - w - 1) + h * width) := by
  rw [hdrMirror_eq_swapAll]
  by_cases hleft : w < width / 2
  · have hmem : (w + h * width, h * width + (width - w - 1)) ∈ mirrorPairs width height :=
      mem_mirrorPairs_iff.mpr ⟨w, h, hleft, hh, rfl⟩
    rw [swapAll_fst _ _ _ _ hmem (pairIdx_mirrorPairs_nodup width height),
      Nat.add_comm (h * width) (width - w - 1)]
  · by_cases hright : width - w - 1 < width / 2
    · have hmem : (width - w - 1 + h * width, h * width + w) ∈ mirrorPairs width height := by
        have : width - (width - w - 1) - 1 = w := by omega
        exact mem_mirrorPairs_iff.mpr ⟨width - w - 1, h, hright, hh, by rw [this]⟩
      have := swapAll_snd _ pixels _ _ hmem (pairIdx_mirrorPairs_nodup width height)
      rw [Nat.add_comm (h * width) w] at this
      rw [this]
    · have hmid : w = width - w - 1 := by omega
      have hnot : (w + h * width) ∉ pairIdx (mirrorPairs width height) := by
        intro hmem
        obtain ⟨p, hp, hxp⟩ := mem_pairIdx.mp hmem
        obtain ⟨w', h', hw', hh', rfl⟩ := mem_mirrorPairs_iff.mp hp
        have hw'lt : w' < width := by omega
        have hm' : width - w' - 1 < width := by omega
        rcases hxp with he | he
        · exact absurd (flatIdx_inj hw hw'lt he).1 (by omega)
        · rw [Nat.add_comm (h' * width) (width - w' - 1)] at he
          exact absurd (flatIdx_inj hw hm' he).1 (by omega)
      rw [swapAll_of_not_mem _ _ _ hnot, ← hmid]

/-- Witness for `from_fs_hdr_mirror_pixel` on a 3×2 buffer at pixel `(0, 1)`:
the mirrored value is the decoded value at `(2, 1)`, flat index `5`. -/
theorem from_fs_hdr_mirror_pixel_witness :
    (0 < 3) ∧ (1 < 2) ∧
      hdrMirror 3 2 (fun i => i) (0 + 1 * 3) = (fun i : Nat => i) ((3 - 0 - 1) + 1 * 3) :=
  ⟨by decide, by decide,
    from_fs_hdr_mirror_pixel 3 2 (fun i => i) 0 1 (by decide) (by decide)⟩

/-! Section: src/material/equirectangle.rs — the HDR path that does not mirror. -/

/-- Embeds the HDR pixel-buffer preparation of `Equirectangle::compute_from_fs_hdr`
(src/material/equirectangle.rs lines 184-202): the decoded pixels are flattened
triple by triple (`flat_map(|rgb| rgb.0)`) with no reindexing, and the result is
uploaded directly via `RawImage2d::from_raw_rgb` — no mirror pass exists on this
path. -/
def equirectHdrSourceData (decoded : List (ℚ × ℚ × ℚ)) : List ℚ :=
  decoded.flatMap (fun p => [p.1, p.2.1, p.2.2])

/-- Pixel `(w, h)` of a flat rgb float buffer of the given width, as interpreted
by `RawImage2d::from_raw_rgb`. -/
def pixelAt (buffer : List ℚ) (width w h : Nat) : Option (ℚ × ℚ × ℚ) :=
  match buffer[3 * (w + h * width)]?, buffer[3 * (w + h * width) + 1]?,
      buffer[3 * (w + h * width) + 2]? with
  | some r, some g, some b => some (r, g, b)
  | _, _, _ => none

/-- Claim C8, counterexample: the HDR path of `Equirectangle::compute_from_fs_hdr`
uploads the decoded buffer without any horizontal mirror.  For the 2×1 decoded
image with pixels `(1,2,3), (4,5,6)`, the uploaded pixel at `(w, h) = (0, 0)` is
the decoded pixel at `(0, 0)`, not the decoded pixel at `(width-1-w, h) = (1, 0)`
required by the claim. -/
theorem equirect_hdr_no_mirror_counterexample :
    pixelAt (equirectHdrSourceData [(1, 2, 3), (4, 5, 6)]) 2 0 0 = some (1, 2, 3) ∧
      pixelAt (equirectHdrSourceData [(1, 2, 3), (4, 5, 6)]) 2 0 0 ≠ some (4, 5, 6) := by
  constructor
  · rfl
  · decide

/-! Section: file-system model for the IBL bundle (src/ibl/mod.rs,
src/cubemap_loader.rs, src/cubemap_render.rs, src/ibl/irradiance_conversion.rs,
src/ibl/brdf.rs). -/

/-- Paths are lists of components, e.g. `["prefilter", "0", "right.png"]`. -/
abbrev Path := List String

/-- Model of the file system seen by the IBL bake and load: the files present
(with their decoded image content, abstract in `α` — PNG encoding/decoding of
8-bit channels is lossless, so saving and re-decoding an image is the identity)
together with the directories present.  Writing a file prepends it, so a later
write of the same path shadows an earlier one, matching overwrite semantics. -/
structure Fs (α : Type) where
  files : List (Path × α)
  dirs : List Path

namespace Fs

/-- Reading the file at `p`, if present. -/
def lookup {α : Type} (fs : Fs α) (p : Path) : Option α :=
  match fs.files.find? (fun q => q.1 == p) with
  | some q => some q.2
  | none => none

/-- Whether `p` exists as a directory: it was created as (a prefix of) a
directory, or some file lies strictly below it. -/
def isDir {α : Type} (fs : Fs α) (p : Path) : Bool :=
  fs.dirs.any (fun d => p.isPrefixOf d) ||
    fs.files.any (fun q => p.isPrefixOf q.1 && ! (p == q.1))

/-- Whether `p` exists at all (`Path::exists`): as a file or as a directory. -/
def pathExists {α : Type} (fs : Fs α) (p : Path) : Bool :=
  fs.isDir p || (fs.lookup p).isSome

/-- Saving an image at `p` (`DynamicImage::save`). -/
def writeFile {α : Type} (fs : Fs α) (p : Path) (img : α) : Fs α :=
  { fs with files := (p, img) :: fs.files }

/-- Creating a directory and its parents (`std::fs::create_dir_all`); prefixes
of a recorded directory also count as directories in `isDir`. -/
def mkDirAll {α : Type} (fs : Fs α) (p : Path) : Fs α :=
  { fs with dirs := p :: fs.dirs }

end Fs

/-- Fixed face base names, in cubemap order (`CubemapRender::FILE_NAMES`,
src/cubemap_render.rs line 46, and `CubemapLoader::create_paths`,
src/cubemap_loader.rs lines 61-73). -/
def faceName : Fin 6 → String
  | 0 => "right"
  | 1 => "left"
  | 2 => "top"
  | 3 => "bottom"
  | 4 => "front"
  | 5 => "back"

/-- Decimal name of a mip level, `format!("{}", level)`, used identically by the
prefilter writer and by `load_mips_fs`. -/
def levelName (n : Nat) : String := toString n

/-- Embeds the file writes of `CubemapRender::render` (src/cubemap_render.rs
lines 69-156): `create_dir_all(&output_directory)` first, after which the
directory exists, so `output_directory.push("output.random")` runs and each
face image is saved at `with_file_name(FILE_NAMES[index]).with_extension(ext)`,
i.e. at `dir/<face>.<ext>`.  `faces i` is the image produced by the GPU pass
for face `i`. -/
def cubemapRenderToFs {α : Type} (fs : Fs α) (dir : Path) (ext : String)
    (faces : Fin 6 → α) : Fs α :=
  let fs1 := fs.mkDirAll dir
  (List.finRange 6).foldl
    (fun acc i => acc.writeFile (dir ++ [faceName i ++ "." ++ ext]) (faces i)) fs1

/-- Embeds the writes of `Prefilter::calculate_to_fs` (src/ibl/prefilter.rs
lines 28-71): for `level in 0..MAX_MIP_LEVELS` the six faces of that level are
rendered into the subfolder named by the level index.  `pf level i` is the image
the GPU produces for mip `level`, face `i`. -/
def prefilterCalculateToFs {α : Type} (fs : Fs α) (dir : Path) (ext : String)
    (pf : Nat → Fin 6 → α) : Fs α :=
  (List.range IblPrefilter.MAX_MIP_LEVELS).foldl
    (fun acc level => cubemapRenderToFs acc (dir ++ [levelName level]) ext (pf level)) fs

/-- Embeds the writes of `IrradianceConverter::calculate_to_fs`
(src/ibl/irradiance_conversion.rs lines 50-149): no directory is created; when
`destination_dir` exists as a directory, `output.png` is pushed so
`with_file_name` places the face files inside it; otherwise `with_file_name`
replaces the last component of `destination_dir` itself, so the face files land
in its parent.  The face names `right.jpg`… become `right.<ext>`… after
`with_extension(extension)`. -/
def irradianceCalculateToFs {α : Type} (fs : Fs α) (dest : Path) (ext : String)
    (ir : Fin 6 → α) : Fs α :=
  let base := if fs.isDir dest then dest else dest.dropLast
  (List.finRange 6).foldl
    (fun acc i => acc.writeFile (base ++ [faceName i ++ "." ++ ext]) (ir i)) fs

/-- Embeds `generate_ibl_from_cubemap` (src/ibl/mod.rs lines 24-52): the
prefilter bake into `outDir/prefilter`, the irradiance bake aimed at
`outDir/ibl_map`, and the BRDF LUT saved at `outDir/brdf.png`
(`BRDF::calculate_to_fs`, src/ibl/brdf.rs lines 40-86). -/
def generateIblFromCubemap {α : Type} (fs : Fs α) (outDir : Path)
    (pf : Nat → Fin 6 → α) (ir : Fin 6 → α) (bd : α) : Fs α :=
  let fs1 := prefilterCalculateToFs fs (outDir ++ ["prefilter"]) "png" pf
  let fs2 := irradianceCalculateToFs fs1 (outDir ++ ["ibl_map"]) "png" ir
  fs2.writeFile (outDir ++ ["brdf.png"]) bd

/-- Embeds `CubemapLoader::create_paths` (src/cubemap_loader.rs lines 61-73):
the six fixed face files of a directory, in right/left/top/bottom/front/back
order. -/
def createPaths (dir : Path) (ext : String) : List Path :=
  (List.finRange 6).map (fun i => dir ++ [faceName i ++ "." ++ ext])

/-- Opening and decoding one image file, `ImageReader::open(path)?.decode()?`:
propagates an error when the file is absent. -/
def openImage {α : Type} (fs : Fs α) (p : Path) : Except String α :=
  match fs.lookup p with
  | some img => Except.ok img
  | none => Except.error "file not found"

/-- Embeds `CubemapLoader::load_from_fs` (src/cubemap_loader.rs lines 79-97):
loads the six face files of `dir` (any missing face propagates an error) and
produces the single-level cubemap face list. -/
def loadFromFs {α : Type} (fs : Fs α) (dir : Path) (ext : String) :
    Except String (List α) :=
  (createPaths dir ext).mapM (openImage fs)

/-- Loop body of `CubemapLoader::load_mips_fs` (src/cubemap_loader.rs lines
116-133): `while directory.join(level).exists()` load the six faces of the
subfolder and continue with the next level.  The unbounded `while` is modelled
with explicit fuel; the theorems assume (and the concrete instances supply)
enough fuel to reach the first missing subfolder. -/
def loadMipsAux {α : Type} (fs : Fs α) (dir : Path) (ext : String) :
    Nat → Nat → Except String (List (List α))
  | 0, _ => Except.ok []
  | fuel + 1, level =>
    if fs.pathExists (dir ++ [levelName level]) then
      match (createPaths (dir ++ [levelName level]) ext).mapM (openImage fs) with
      | Except.error e => Except.error e
      | Except.ok faces =>
        match loadMipsAux fs dir ext fuel (level + 1) with
        | Except.error e => Except.error e
        | Except.ok rest => Except.ok (faces :: rest)
    else Except.ok []

/-- Embeds `CubemapLoader::load_mips_fs` (src/cubemap_loader.rs lines 107-146):
`if directory.is_file() { directory.pop(); }`, then the numeric-subfolder loop
starting at level `0`, and the `cubes.len() == 0` error check. -/
def loadMipsFs {α : Type} (fs : Fs α) (dir : Path) (ext : String) (fuel : Nat) :
    Except String (List (List α)) :=
  let dir := if (fs.lookup dir).isSome then dir.dropLast else dir
  match loadMipsAux fs dir ext fuel 0 with
  | Except.error e => Except.error e
  | Except.ok cubes =>
    if cubes.length = 0 then Except.error "Unable to find any cubemaps"
    else Except.ok cubes

/-- Result of `load_ibl_fs` (the `Ibl` struct, src/ibl/mod.rs lines 16-20). -/
structure IblM (α : Type) where
  irradianceMap : List α
  prefilter : List (List α)
  brdf : α
deriving DecidableEq

/-- Embeds `load_ibl_fs` (src/ibl/mod.rs lines 54-70): loads `dir/ibl_map` as a
plain cubemap, `dir/prefilter` as a mip-mapped cubemap, and `dir/brdf.png` as a
2D texture, propagating the first error. -/
def loadIblFs {α : Type} (fs : Fs α) (dir : Path) (fuel : Nat) :
    Except String (IblM α) :=
  match loadFromFs fs (dir ++ ["ibl_map"]) "png" with
  | Except.error e => Except.error e
  | Except.ok ir =>
    match loadMipsFs fs (dir ++ ["prefilter"]) "png" fuel with
    | Except.error e => Except.error e
    | Except.ok pfm =>
      match openImage fs (dir ++ ["brdf.png"]) with
      | Except.error e => Except.error e
      | Except.ok bd => Except.ok ⟨ir, pfm, bd⟩

/-! Section: claim C7. -/

theorem loadMipsAux_ok {α : Type} (fs : Fs α) (dir : Path) (ext : String) :
    ∀ (fuel level : Nat) (cubes : List (List α)),
      loadMipsAux fs dir ext fuel level = Except.ok cubes →
      (∀ i < cubes.length, fs.pathExists (dir ++ [levelName (level + i)]) = true) ∧
        (cubes.length < fuel →
          fs.pathExists (dir ++ [levelName (level + cubes.length)]) = false) := by
  intro fuel
  induction fuel with
  | zero =>
    intro level cubes h
    simp only [loadMipsAux] at h
    injection h with h
    subst h
    exact ⟨fun i hi => absurd hi (by simp), fun hf => absurd hf (by simp)⟩
  | succ fuel ih =>
    intro level cubes h
    simp only [loadMipsAux] at h
    by_cases hex : fs.pathExists (dir ++ [levelName level]) = true
    · rw [if_pos hex] at h
      cases hfaces : (createPaths (dir ++ [levelName level]) ext).mapM (openImage fs) with
      | error e => rw [hfaces] at h; exact absurd h (by simp)
      | ok faces =>
        rw [hfaces] at h
        cases hrest : loadMipsAux fs dir ext fuel (level + 1) with
        | error e => rw [hrest] at h; exact absurd h (by simp)
        | ok rest =>
          rw [hrest] at h
          injection h with h
          subst h
          obtain ⟨ih1, ih2⟩ := ih (level + 1) rest hrest
          constructor
          · intro i hi
            cases i with
            | zero => simpa using hex
            | succ j =>
              have hj : j < rest.length := by
                simpa [Nat.succ_lt_succ_iff] using hi
              have := ih1 j hj
              have harith : level + 1 + j = level + (j + 1) := by omega
              rwa [harith] at this
          · intro hf
            have hf' : rest.length < fuel := by
              simpa [Nat.succ_lt_succ_iff] using hf
            have := ih2 hf'
            have harith : level + 1 + rest.length = level + (faces :: rest).length := by
              simp
              omega
            rwa [harith] at this
    · rw [if_neg hex] at h
      injection h with h
      subst h
      refine ⟨fun i hi => absurd hi (by simp), fun _ => ?_⟩
      simpa using (Bool.not_eq_true _).mp hex

/-- Claim C7, amended: when the prefilter directory is not itself a file,
`load_mips_fs` errors if subfolder `0` is absent; and whenever it succeeds, it
found at least one subfolder, every subfolder `0 .. n-1` for its `n` returned
levels exists, and (fuel permitting) subfolder `n` is the first missing one —
so on success the cubemap has exactly as many mip levels as consecutive
subfolders present from `0`.  A missing face file inside an existing subfolder
is a further error source the original claim omits (see the counterexample). -/
theorem load_mips_levels {α : Type} (fs : Fs α) (dir : Path) (ext : String)
    (fuel : Nat) (hnotfile : (fs.lookup dir).isSome = false) :
    (fs.pathExists (dir ++ [levelName 0]) = false → 0 < fuel →
        ∃ e, loadMipsFs fs dir ext fuel = Except.error e) ∧
      (∀ cubes, loadMipsFs fs dir ext fuel = Except.ok cubes →
        0 < cubes.length ∧
          (∀ i < cubes.length, fs.pathExists (dir ++ [levelName i]) = true) ∧
          (cubes.length < fuel →
            fs.pathExists (dir ++ [levelName cubes.length]) = false)) := by
  constructor
  · intro h0 hfuel
    obtain ⟨f, rfl⟩ := Nat.exists_eq_succ_of_ne_zero (Nat.pos_iff_ne_zero.mp hfuel)
    refine ⟨"Unable to find any cubemaps", ?_⟩
    simp only [loadMipsFs, hnotfile, Bool.false_eq_true, if_false, loadMipsAux, h0,
      Bool.false_eq_true, if_false]
    rfl
  · intro cubes hok
    simp only [loadMipsFs, hnotfile, Bool.false_eq_true, if_false] at hok
    cases haux : loadMipsAux fs dir ext fuel 0 with
    | error e => rw [haux] at hok; exact absurd hok (by simp)
    | ok cubes' =>
      rw [haux] at hok
      dsimp only at hok
      by_cases hlen : cubes'.length = 0
      · rw [if_pos hlen] at hok
        exact absurd hok (by simp)
      · rw [if_neg hlen] at hok
        injection hok with hok
        subst hok
        obtain ⟨h1, h2⟩ := loadMipsAux_ok fs dir ext fuel 0 cubes' haux
        exact ⟨Nat.pos_of_ne_zero hlen, fun i hi => by simpa using h1 i hi,
          fun hf => by simpa using h2 hf⟩

/-- Witness for `load_mips_levels`: a file system holding exactly the six face
files of subfolder `0`; `load_mips_fs` succeeds with one mip level. -/
theorem load_mips_levels_witness :
    ((Fs.mk (createPaths ["0"] "png" |>.map (fun p => (p, 0)))
          [] : Fs Nat).lookup []).isSome = false ∧
      ((((Fs.mk (createPaths ["0"] "png" |>.map (fun p => (p, 0))) [] : Fs Nat).pathExists
            ([] ++ [levelName 0]) = false) → 0 < 3 →
          ∃ e, loadMipsFs (Fs.mk (createPaths ["0"] "png" |>.map (fun p => (p, 0))) [])
              [] "png" 3 = Except.error e) ∧
        (∀ cubes,
          loadMipsFs (Fs.mk (createPaths ["0"] "png" |>.map (fun p => (p, 0))) [])
              [] "png" 3 = Except.ok cubes →
          0 < cubes.length ∧
            (∀ i < cubes.length,
              (Fs.mk (createPaths ["0"] "png" |>.map (fun p => (p, 0))) [] : Fs Nat).pathExists
                ([] ++ [levelName i]) = true) ∧
            (cubes.length < 3 →
              (Fs.mk (createPaths ["0"] "png" |>.map (fun p => (p, 0))) [] : Fs Nat).pathExists
                ([] ++ [levelName cubes.length]) = false))) :=
  ⟨by decide,
    load_mips_levels (Fs.mk (createPaths ["0"] "png" |>.map (fun p => (p, 0))) [])
      [] "png" 3 (by decide)⟩

/-- Claim C7, counterexample: a file system in which subfolder `0` exists (it
contains `junk.txt`) but holds no face files.  `load_mips_fs` returns an error
even though one numeric subfolder was found, refuting the claimed
"error if and only if zero subfolders were found". -/
theorem load_mips_error_despite_subfolder :
    (Fs.mk [((["0", "junk.txt"] : Path), (0 : Nat))] [] : Fs Nat).pathExists
        ([] ++ [levelName 0]) = true ∧
      loadMipsFs (Fs.mk [((["0", "junk.txt"] : Path), (0 : Nat))] [] : Fs Nat)
          [] "png" 3 = Except.error "file not found" := by
  constructor
  · decide
  · rfl

/-! Section: claim C6 — the IBL bundle round trip. -/

/-- Claim C6, counterexample: baking into a fresh output directory (no `ibl_map/`
subdirectory existing beforehand).  `IrradianceConverter::calculate_to_fs` never
creates its destination directory, so `ibl_map` does not exist when the faces
are saved; `with_file_name` then replaces the `ibl_map` path component, the
irradiance faces land in the output directory itself (`right.png`, …), and
`load_ibl_fs` on that same directory fails to find `ibl_map/right.png`: the
round trip errors instead of succeeding. -/
theorem ibl_roundtrip_fresh_dir_fails :
    ((generateIblFromCubemap (Fs.mk [] [] : Fs Nat) []
          (fun l i => 10 * l + i.val) (fun i => 100 + i.val) 7).lookup
        ["ibl_map", "right.png"] = none) ∧
      ((generateIblFromCubemap (Fs.mk [] [] : Fs Nat) []
          (fun l i => 10 * l + i.val) (fun i => 100 + i.val) 7).lookup
        ["right.png"] = some 100) ∧
      (loadIblFs (generateIblFromCubemap (Fs.mk [] [] : Fs Nat) []
          (fun l i => 10 * l + i.val) (fun i => 100 + i.val) 7) [] 6 =
        Except.error "file not found") :=
  ⟨rfl, rfl, rfl⟩

set_option maxHeartbeats 4000000 in
/-- Claim C6, amended: when `outputDir/ibl_map` exists as a directory before the
bake (as in the repository's shipped asset layout), the round trip holds
exactly: `load_ibl_fs` on the directory populated by `generate_ibl_from_cubemap`
succeeds and reproduces precisely the written images — the six irradiance faces
in right/left/top/bottom/front/back order, the prefilter levels `0..4`
(`MAX_MIP_LEVELS = 5`, independent of the source cubemap's mip count) of six
faces each, and the BRDF texture — and the files written are exactly the six
face files per prefilter level `0..4`, the six `ibl_map` faces, and `brdf.png`. -/
theorem ibl_roundtrip (α : Type) (pf : Nat → Fin 6 → α) (ir : Fin 6 → α) (bd : α) :
    loadIblFs (generateIblFromCubemap (Fs.mk [] [["ibl_map"]] : Fs α) [] pf ir bd)
        [] 6 =
      Except.ok
        ⟨[ir 0, ir 1, ir 2, ir 3, ir 4, ir 5],
          [[pf 0 0, pf 0 1, pf 0 2, pf 0 3, pf 0 4, pf 0 5],
           [pf 1 0, pf 1 1, pf 1 2, pf 1 3, pf 1 4, pf 1 5],
           [pf 2 0, pf 2 1, pf 2 2, pf 2 3, pf 2 4, pf 2 5],
           [pf 3 0, pf 3 1, pf 3 2, pf 3 3, pf 3 4, pf 3 5],
           [pf 4 0, pf 4 1, pf 4 2, pf 4 3, pf 4 4, pf 4 5]], bd⟩ ∧
      ((generateIblFromCubemap (Fs.mk [] [["ibl_map"]] : Fs α) [] pf ir bd).files.map
            Prod.fst).reverse =
        (([["prefilter", "0"], ["prefilter", "1"], ["prefilter", "2"],
            ["prefilter", "3"], ["prefilter", "4"]] : List Path).flatMap
            (fun d => (List.finRange 6).map (fun i => d ++ [faceName i ++ ".png"])) ++
          (List.finRange 6).map (fun i => ["ibl_map", faceName i ++ ".png"]) ++
          [["brdf.png"]]) := by
  have hgen : generateIblFromCubemap (Fs.mk [] [["ibl_map"]] : Fs α) [] pf ir bd =
      Fs.mk
        [(["brdf.png"], bd),
         (["ibl_map", "back.png"], ir 5), (["ibl_map", "front.png"], ir 4),
         (["ibl_map", "bottom.png"], ir 3), (["ibl_map", "top.png"], ir 2),
         (["ibl_map", "left.png"], ir 1), (["ibl_map", "right.png"], ir 0),
         (["prefilter", "4", "back.png"], pf 4 5), (["prefilter", "4", "front.png"], pf 4 4),
         (["prefilter", "4", "bottom.png"], pf 4 3), (["prefilter", "4", "top.png"], pf 4 2),
         (["prefilter", "4", "left.png"], pf 4 1), (["prefilter", "4", "right.png"], pf 4 0),
         (["prefilter", "3", "back.png"], pf 3 5), (["prefilter", "3", "front.png"], pf 3 4),
         (["prefilter", "3", "bottom.png"], pf 3 3), (["prefilter", "3", "top.png"], pf 3 2),
         (["prefilter", "3", "left.png"], pf 3 1), (["prefilter", "3", "right.png"], pf 3 0),
         (["prefilter", "2", "back.png"], pf 2 5), (["prefilter", "2", "front.png"], pf 2 4),
         (["prefilter", "2", "bottom.png"], pf 2 3), (["prefilter", "2", "top.png"], pf 2 2),
         (["prefilter", "2", "left.png"], pf 2 1), (["prefilter", "2", "right.png"], pf 2 0),
         (["prefilter", "1", "back.png"], pf 1 5), (["prefilter", "1", "front.png"], pf 1 4),
         (["prefilter", "1", "bottom.png"], pf 1 3), (["prefilter", "1", "top.png"], pf 1 2),
         (["prefilter", "1", "left.png"], pf 1 1), (["prefilter", "1", "right.png"], pf 1 0),
         (["prefilter", "0", "back.png"], pf 0 5), (["prefilter", "0", "front.png"], pf 0 4),
         (["prefilter", "0", "bottom.png"], pf 0 3), (["prefilter", "0", "top.png"], pf 0 2),
         (["prefilter", "0", "left.png"], pf 0 1), (["prefilter", "0", "right.png"], pf 0 0)]
        [["prefilter", "4"], ["prefilter", "3"], ["prefilter", "2"], ["prefilter", "1"],
         ["prefilter", "0"], ["ibl_map"]] := rfl
  constructor
  · rw [hgen]
    rfl
  · rw [hgen]
    rfl

end GlRender
